import Mathlib

/-!
Verification of the selection-and-recreation core of `docker-updater`
(`main.go`, function `updateContainer` and its helpers).

Go strings are modelled as `List Char` (the program only ever handles
ASCII image references and tags, where Go's byte-wise operations agree
with character-wise ones).  Go's `strings.Split` with a one-character
separator is modelled by `splitChar`, `strings.TrimSuffix` by
`trimSuffix`.  The `github.com/Masterminds/semver` (v1) dependency is
modelled by `parseSemver` / `compareSemver` below, translated from that
library's `NewVersion` / `Compare` / `LessThan` implementations.

The docker daemon is an external collaborator; it is modelled as an
`Oracle` that answers each runtime call, and `updateContainer` is a
function from the oracle and the current running-container list to the
emitted call trace, the run result and the resulting container list.
-/

namespace DockerUpdater

/-- Go strings, modelled as lists of characters. -/
abbrev Str := List Char

/-- Model of Go `strings.Split(s, string(sep))`: the substrings of `s`
between occurrences of `sep`.  Never returns an empty list. -/
def splitChar (sep : Char) : Str → List Str
  | [] => [[]]
  | c :: rest =>
    if c = sep then [] :: splitChar sep rest
    else
      match splitChar sep rest with
      | [] => [[c]]
      | p :: ps => (c :: p) :: ps

/-- Model of Go `strings.TrimSuffix(s, suffix)`. -/
def trimSuffix (s suffix : Str) : Str :=
  if suffix <:+ s then s.take (s.length - suffix.length) else s

/-- The sentinel tag, `const latest = "latest"` in `main.go`. -/
def latestStr : Str := ['l', 'a', 't', 'e', 's', 't']

/-- The image-reference split performed at the top of the selection loop
of `updateContainer` (`main.go`): `iParts := strings.Split(cnt.Image, ":")`,
`cRepo = iParts[0]`, `cTag = iParts[1]` when present, with the empty tag
defaulting to `latest`. -/
def splitRepoTag (image : Str) : Str × Str :=
  let iParts := splitChar ':' image
  let cTag0 := iParts.getD 1 []
  (iParts.headD [], if cTag0 = [] then latestStr else cTag0)

/-! ## Model of the `github.com/Masterminds/semver` (v1) dependency

`NewVersion` matches `^v?([0-9]+)(\.[0-9]+)?(\.[0-9]+)?`
`(-([0-9A-Za-z-]+(\.[0-9A-Za-z-]+)*))?(\+([0-9A-Za-z-]+(\.[0-9A-Za-z-]+)*))?$`
and parses the numeric segments with `strconv.ParseInt(_, 10, 64)`.
The grammar is deterministic (no charset contains the delimiter that
follows it), so the regex match is modelled by a greedy parser. -/

/-- Largest value accepted by `strconv.ParseInt(_, 10, 64)`. -/
def int64Max : Nat := 9223372036854775807

/-- Numeric value of a digit string (as read by `strconv.ParseInt`). -/
def digitsVal (ds : Str) : Nat :=
  ds.foldl (fun a c => a * 10 + (c.toNat - 48)) 0

/-- `strconv.ParseInt(ds, 10, 64)` on an unsigned digit string: requires a
non-empty all-digit string whose value fits in a signed 64-bit integer. -/
def digitsToNat64 (ds : Str) : Option Nat :=
  if ds ≠ [] ∧ ds.all Char.isDigit ∧ digitsVal ds ≤ int64Max then
    some (digitsVal ds)
  else none

/-- Parse the leading `[0-9]+` group and return its value and the rest. -/
def parseNum (s : Str) : Option (Nat × Str) :=
  match digitsToNat64 (s.takeWhile Char.isDigit) with
  | some n => some (n, s.dropWhile Char.isDigit)
  | none => none

/-- Parse an optional `(\.[0-9]+)?` group (minor / patch segment); an
absent group yields 0, as in `NewVersion`. -/
def parseDotNum (s : Str) : Option (Nat × Str) :=
  match s with
  | '.' :: r => parseNum r
  | _ => some (0, s)

/-- Character class `[0-9A-Za-z-]` of prerelease / metadata identifiers. -/
def isPreChar (c : Char) : Bool := c.isDigit || c.isAlpha || c = '-'

/-- Does `s` match `[0-9A-Za-z-]+(\.[0-9A-Za-z-]+)*`? -/
def validParts (s : Str) : Bool :=
  (splitChar '.' s).all (fun p => !p.isEmpty && p.all isPreChar)

/-- Parse the optional prerelease (after `-`) and build-metadata (after
`+`) groups; returns the raw matched strings (`m[5]`, `m[8]`). -/
def parseTail (s : Str) : Option (Str × Str) :=
  match s with
  | [] => some ([], [])
  | '+' :: m => if validParts m then some ([], m) else none
  | '-' :: r =>
    if validParts (r.takeWhile (fun c => !(c == '+'))) then
      match r.dropWhile (fun c => !(c == '+')) with
      | [] => some (r.takeWhile (fun c => !(c == '+')), [])
      | '+' :: m =>
        if validParts m then some (r.takeWhile (fun c => !(c == '+')), m)
        else none
      | _ => none
    else none
  | _ => none

/-- A parsed `semver.Version`: numeric triple plus the raw prerelease and
metadata strings (`Prerelease()` / `Metadata()` accessors). -/
structure SemVer where
  major : Nat
  minor : Nat
  patch : Nat
  pre : Str
  metadata : Str
deriving Repr, DecidableEq

/-- The optional leading `v` accepted by the `NewVersion` regex. -/
def stripV (s : Str) : Str :=
  match s with
  | 'v' :: r => r
  | _ => s

/-- Model of `semver.NewVersion` (v1): `none` models a parse error. -/
def parseSemver (s : Str) : Option SemVer :=
  match parseNum (stripV s) with
  | none => none
  | some (maj, r1) =>
    match parseDotNum r1 with
    | none => none
    | some (mi, r2) =>
      match parseDotNum r2 with
      | none => none
      | some (pa, r3) =>
        match parseTail r3 with
        | none => none
        | some (p, m) => some ⟨maj, mi, pa, p, m⟩

/-- `strconv.ParseInt(s, 10, 64)` as used by `comparePrePart` (accepts an
optional sign). -/
def parseInt64 (s : Str) : Option Int :=
  match s with
  | '-' :: r =>
    if r ≠ [] ∧ r.all Char.isDigit ∧ digitsVal r ≤ int64Max + 1 then
      some (-(digitsVal r : Int))
    else none
  | '+' :: r =>
    if r ≠ [] ∧ r.all Char.isDigit ∧ digitsVal r ≤ int64Max then
      some ((digitsVal r : Int))
    else none
  | r =>
    if r ≠ [] ∧ r.all Char.isDigit ∧ digitsVal r ≤ int64Max then
      some ((digitsVal r : Int))
    else none

/-- Go string comparison `s > o` (byte-wise; the compared strings here are
always ASCII prerelease identifiers). -/
def gtStr : Str → Str → Bool
  | [], _ => false
  | _ :: _, [] => true
  | a :: as, b :: bs =>
    if a.toNat > b.toNat then true
    else if a.toNat < b.toNat then false
    else gtStr as bs

/-- `comparePrePart` of Masterminds/semver v1. -/
def comparePrePart (s o : Str) : Int :=
  if s = o then 0
  else if s = [] then (if o ≠ [] then -1 else 1)
  else if o = [] then (if s ≠ [] then 1 else -1)
  else
    match parseInt64 s, parseInt64 o with
    | none, none => if gtStr s o then 1 else -1
    | some _, none => -1
    | none, some _ => 1
    | some si, some oi => if si > oi then 1 else -1

/-- The index loop of `comparePrerelease`: compare dot-parts pairwise,
padding the shorter side with the empty string. -/
def cprLoop : List Str → List Str → Int
  | [], [] => 0
  | s :: ss, [] =>
    if comparePrePart s [] = 0 then cprLoop ss [] else comparePrePart s []
  | [], t :: ts =>
    if comparePrePart [] t = 0 then cprLoop [] ts else comparePrePart [] t
  | s :: ss, t :: ts =>
    if comparePrePart s t = 0 then cprLoop ss ts else comparePrePart s t

/-- `comparePrerelease` of Masterminds/semver v1. -/
def comparePrerelease (v o : Str) : Int :=
  cprLoop (splitChar '.' v) (splitChar '.' o)

/-- `compareSegment` of Masterminds/semver v1. -/
def compareSegment (v o : Nat) : Int :=
  if v < o then -1 else if v > o then 1 else 0

/-- `Version.Compare` of Masterminds/semver v1: numeric triple first, then
prerelease precedence (absence of a prerelease ranks higher); build
metadata is ignored. -/
def compareSemver (v o : SemVer) : Int :=
  if compareSegment v.major o.major ≠ 0 then compareSegment v.major o.major
  else if compareSegment v.minor o.minor ≠ 0 then compareSegment v.minor o.minor
  else if compareSegment v.patch o.patch ≠ 0 then compareSegment v.patch o.patch
  else if v.pre = [] ∧ o.pre = [] then 0
  else if v.pre = [] then 1
  else if o.pre = [] then -1
  else comparePrerelease v.pre o.pre

/-- `Version.LessThan` of Masterminds/semver v1. -/
def lessThan (v o : SemVer) : Bool := compareSemver v o < 0

/-- `Version.GreaterThan` of Masterminds/semver v1 (the spec's "target
version strictly greater than the current version"). -/
def greaterThan (v o : SemVer) : Bool := compareSemver v o > 0

/-! ## The selection loop of `updateContainer` -/

/-- An entry of `ContainerList`: only the fields the selection loop reads. -/
structure Container where
  id : Str
  image : Str
deriving Repr, DecidableEq

/-- A selected container together with the values the local variables
`cVer` and `ver` hold at the selection log statement
(`logrus.Infof("to update %s:%s -> %s", cRepo, cVer.String(), ver.String())`);
`none` models a nil `*semver.Version`. -/
structure SelEntry where
  cnt : Container
  cVer : Option SemVer
  ver : Option SemVer
deriving Repr, DecidableEq

/-- One iteration of the selection loop of `updateContainer`: decides
whether `cnt` is appended to `toUpdate`. -/
def considerContainer (repo tag : Str) (cnt : Container) : Option SelEntry :=
  if (splitRepoTag cnt.image).1 = repo then
    if (splitRepoTag cnt.image).2 = latestStr then
      if tag = (splitRepoTag cnt.image).2 then some ⟨cnt, none, none⟩ else none
    else
      match parseSemver (splitRepoTag cnt.image).2 with
      | none => none
      | some cv =>
        match parseSemver tag with
        | none => none
        | some v =>
          if cv.pre = v.pre ∧ cv.metadata = v.metadata ∧ lessThan cv v = true then
            some ⟨cnt, some cv, some v⟩
          else none
  else none

/-- The selection performed by `updateContainer`, with the version
pointers observed at each selection log statement. -/
def selectEntries (repo tag : Str) (containers : List Container) : List SelEntry :=
  containers.filterMap (considerContainer repo tag)

/-- The `toUpdate` slice built by the selection loop of `updateContainer`. -/
def toUpdate (repo tag : Str) (containers : List Container) : List Container :=
  (selectEntries repo tag containers).map SelEntry.cnt

/-! ## The full run of `updateContainer`

The docker daemon is modelled as an `Oracle` answering each runtime
call; the run returns the list of issued calls, the outcome, and the
resulting running-container list.  `panicked` models a Go runtime panic
(nil-pointer dereference).  Error messages, log output, the pull
progress stream and the image-removal response payload are not
observable by any claim and are not modelled; the normalized pull
reference (`reference.ParseNormalizedNamed(fullRepo).String()`) is
abstracted to `fullRepo` itself, with a separate oracle flag for
normalization failure. -/

/-- The container configuration (`container.Config`): its `Image` field,
which `updateContainer` rewrites, plus an abstract remainder standing for
every other field, which it preserves. -/
structure Config where
  image : Str
  rest : Str
deriving Repr, DecidableEq

/-- The inspect response (`types.ContainerJSON`): only the fields the
recreation loop reads.  `image` and `name` are fields of the embedded
`*ContainerJSONBase`; in the Go zero value (returned alongside an
inspect error) that embedded pointer is nil, so reading the promoted
`Image` field panics — the zero value is therefore not represented by
this structure, and a failed post-start inspect is modelled as a panic
in `recreateLoop` at the image-id comparison. -/
structure Inspect where
  image : Str
  name : Str
  config : Option Config
deriving Repr, DecidableEq

/-- One docker-API call issued by `updateContainer`. -/
inductive Call where
  | list
  | pull (ref : Str)
  | inspect (id : Str)
  | remove (id : Str)
  | create (name : Str) (cfg : Config)
  | start (id : Str)
  | imageRemove (id : Str)
deriving Repr, DecidableEq

/-- Outcome of a run: the `error` return value of `updateContainer`
(`ok` = nil, `err` = non-nil), or a Go runtime panic. -/
inductive RunResult where
  | ok
  | err
  | panicked
deriving Repr, DecidableEq

/-- The observable outcome of a run: issued calls, result, and the
resulting running-container list. -/
structure RunOut where
  trace : List Call
  result : RunResult
  state : List Container
deriving Repr, DecidableEq

/-- The docker daemon, as seen through the client calls the code makes.
The result of `ImageRemove` is only logged, so it needs no oracle. -/
structure Oracle where
  listOk : Bool
  refParseOk : Bool
  pullOk : Bool
  inspectRes : Str → Option Inspect
  removeOk : Str → Bool
  createRes : Str → Option Str
  startOk : Str → Bool

/-- The replacement configuration built in the recreation loop:
`contConfig.Image = strings.TrimSuffix(fullRepo, ":"+latest)`, all other
fields taken unchanged from the inspected config. -/
def replacementConfig (cfg : Config) (fullRepo : Str) : Config :=
  { cfg with image := trimSuffix fullRepo (':' :: latestStr) }

/-- The per-container recreation loop of `updateContainer`:
inspect → force-remove → rebuild config → create → start → re-inspect
(error unchecked) → conditionally remove the previous image.  An error
return aborts the remaining containers; a nil inspected config panics at
the `contConfig.Image` assignment; a failed post-start re-inspect
leaves `inspect` the zero `types.ContainerJSON`, whose embedded
`*ContainerJSONBase` is nil, so `prevImageId != inspect.Image` panics at
the comparison before any image removal. -/
def recreateLoop (fullRepo : Str) (o : Oracle) :
    List Container → List Container → List Call × RunResult × List Container
  | [], st => ([], .ok, st)
  | cnt :: restCnts, st =>
    match o.inspectRes cnt.id with
    | none => ([.inspect cnt.id], .err, st)
    | some insp =>
      if o.removeOk cnt.id = false then
        ([.inspect cnt.id, .remove cnt.id], .err, st)
      else
        match insp.config with
        | none =>
          ([.inspect cnt.id, .remove cnt.id], .panicked,
            st.filter (fun c => !(c.id == cnt.id)))
        | some cfg =>
          match o.createRes insp.name with
          | none =>
            ([.inspect cnt.id, .remove cnt.id,
              .create insp.name (replacementConfig cfg fullRepo)], .err,
              st.filter (fun c => !(c.id == cnt.id)))
          | some newId =>
            if o.startOk newId = false then
              ([.inspect cnt.id, .remove cnt.id,
                .create insp.name (replacementConfig cfg fullRepo),
                .start newId], .err,
                st.filter (fun c => !(c.id == cnt.id)) ++
                  [⟨newId, (replacementConfig cfg fullRepo).image⟩])
            else
              match o.inspectRes newId with
              | none =>
                ([.inspect cnt.id, .remove cnt.id,
                  .create insp.name (replacementConfig cfg fullRepo),
                  .start newId, .inspect newId], .panicked,
                  st.filter (fun c => !(c.id == cnt.id)) ++
                    [⟨newId, (replacementConfig cfg fullRepo).image⟩])
              | some insp2 =>
                let tail := recreateLoop fullRepo o restCnts
                  (st.filter (fun c => !(c.id == cnt.id)) ++
                    [⟨newId, (replacementConfig cfg fullRepo).image⟩])
                ((if insp.image = insp2.image then
                    [.inspect cnt.id, .remove cnt.id,
                      .create insp.name (replacementConfig cfg fullRepo),
                      .start newId, .inspect newId]
                  else
                    [.inspect cnt.id, .remove cnt.id,
                      .create insp.name (replacementConfig cfg fullRepo),
                      .start newId, .inspect newId,
                      .imageRemove insp.image]) ++ tail.1,
                  tail.2.1, tail.2.2)

/-- The full `updateContainer(repo, tag)` run (first source version):
argument validation, container listing, the selection loop (which panics
at the selection log statement when a latest-tracking container is
selected), the empty-selection early exit, reference normalization,
image pull, and the recreation loop. -/
def updateContainer (repo tag : Str) (o : Oracle) (st : List Container) :
    RunOut :=
  if repo = [] ∨ tag = [] then ⟨[], .err, st⟩
  else if o.listOk = false then ⟨[.list], .err, st⟩
  else if (selectEntries repo tag st).any
      (fun e => e.cVer.isNone || e.ver.isNone) then
    ⟨[.list], .panicked, st⟩
  else if selectEntries repo tag st = [] then ⟨[.list], .ok, st⟩
  else if o.refParseOk = false then ⟨[.list], .err, st⟩
  else if o.pullOk = false then
    ⟨[.list, .pull (repo ++ ':' :: tag)], .err, st⟩
  else
    let r := recreateLoop (repo ++ ':' :: tag) o (toUpdate repo tag st) st
    ⟨[.list, .pull (repo ++ ':' :: tag)] ++ r.1, r.2.1, r.2.2⟩

/-- An oracle on which every call fails; used by concrete witnesses that
never reach past the selection stage. -/
def oInert : Oracle :=
  ⟨true, true, true, fun _ => none, fun _ => false,
    fun _ => none, fun _ => false⟩

/-- An oracle whose image pull fails. -/
def oPullFail : Oracle :=
  ⟨true, true, false, fun _ => none, fun _ => false,
    fun _ => none, fun _ => false⟩

/-- An oracle for which every call succeeds except inspecting the
replacement container `n1` after start. -/
def oPostInspectFail : Oracle :=
  ⟨true, true, true,
    fun i => if i = "c1".data then
        some ⟨"img1".data, "/app".data, some ⟨"app:1.2.0".data, "R".data⟩⟩
      else none,
    fun _ => true, fun _ => some "n1".data, fun _ => true⟩

/-- An oracle on which every call succeeds: inspecting `c1` yields its
config, creation yields `n1`, and inspecting anything else yields the
replacement's data. -/
def oAllOk : Oracle :=
  ⟨true, true, true,
    fun i => if i = "c1".data then
        some ⟨"img1".data, "/app".data, some ⟨"app:1.2.0".data, "R".data⟩⟩
      else some ⟨"img2".data, "/app".data, some ⟨"app:1.3.0".data, "R".data⟩⟩,
    fun _ => true, fun _ => some "n1".data, fun _ => true⟩

theorem splitChar_ne_nil (sep : Char) (s : Str) : splitChar sep s ≠ [] := by
  cases s with
  | nil => simp [splitChar]
  | cons c rest =>
    simp only [splitChar]
    split
    · simp
    · split <;> simp

theorem splitChar_no_sep {sep : Char} {s : Str} (h : sep ∉ s) :
    splitChar sep s = [s] := by
  induction s with
  | nil => rfl
  | cons c rest ih =>
    simp only [List.mem_cons, not_or] at h
    have hcs : ¬ c = sep := fun hc => h.1 hc.symm
    simp only [splitChar, if_neg hcs, ih h.2]

theorem splitChar_append {sep : Char} {a : Str} (b : Str) (h : sep ∉ a) :
    splitChar sep (a ++ sep :: b) = a :: splitChar sep b := by
  induction a with
  | nil => simp [splitChar]
  | cons c rest ih =>
    simp only [List.mem_cons, not_or] at h
    have hcs : ¬ c = sep := fun hc => h.1 hc.symm
    simp only [List.cons_append, splitChar, if_neg hcs, List.append_eq, ih h.2]

/-- Claim C2 (counterexample): on an image reference with two colons the
selector does not split on the last colon.  For `registry:5000/app:1.2.0`
the code yields `cRepo = "registry"`, `cTag = "5000/app"`, not
`cRepo = "registry:5000/app"`, `cTag = "1.2.0"`. -/
theorem C2_last_colon_counterexample :
    splitRepoTag "registry:5000/app:1.2.0".data
      = ("registry".data, "5000/app".data) ∧
    splitRepoTag "registry:5000/app:1.2.0".data
      ≠ ("registry:5000/app".data, "1.2.0".data) := by
  constructor
  · decide
  · decide

/-- Claim C2 (amended): the selector splits the image reference on the
first `:`: `cRepo` is everything before the first `:` and `cTag` is the
segment between the first and the second `:` (everything after the first
`:` when there is no second one); when the reference contains no `:`, or
the tag segment is empty, `cTag` is the sentinel `latest`. -/
theorem C2_split_first_colon :
    (∀ image : Str, ':' ∉ image → splitRepoTag image = (image, latestStr)) ∧
    (∀ a b : Str, ':' ∉ a → ':' ∉ b → b ≠ [] →
      splitRepoTag (a ++ ':' :: b) = (a, b)) ∧
    (∀ a b c : Str, ':' ∉ a → ':' ∉ b → b ≠ [] →
      splitRepoTag (a ++ ':' :: b ++ ':' :: c) = (a, b)) ∧
    (∀ a : Str, ':' ∉ a → splitRepoTag (a ++ [':']) = (a, latestStr)) := by
  refine ⟨?_, ?_, ?_, ?_⟩
  · intro image h
    simp [splitRepoTag, splitChar_no_sep h]
  · intro a b ha hb hbne
    simp [splitRepoTag, splitChar_append b ha, splitChar_no_sep hb, hbne]
  · intro a b c ha hb hbne
    have h1 : a ++ ':' :: b ++ ':' :: c = a ++ ':' :: (b ++ ':' :: c) := by
      simp
    have h2 : splitChar ':' (a ++ ':' :: b ++ ':' :: c)
        = a :: b :: splitChar ':' c := by
      rw [h1, splitChar_append _ ha, splitChar_append _ hb]
    rw [h1] at h2
    simp only [splitRepoTag, h1, h2]
    simp [hbne]
  · intro a ha
    have : a ++ [':'] = a ++ ':' :: ([] : Str) := rfl
    rw [this, splitRepoTag, splitChar_append _ ha]
    simp [splitChar, latestStr]

/-- Witness for `C2_split_first_colon` at concrete inputs. -/
theorem C2_split_first_colon_witness :
    splitRepoTag ("registry".data ++ ':' :: "5000/app".data ++ ':' :: "1.2.0".data)
      = ("registry".data, "5000/app".data) :=
  C2_split_first_colon.2.2.1 "registry".data "5000/app".data "1.2.0".data
    (by decide) (by decide) (by decide)

theorem considerContainer_cnt {repo tag : Str} {x : Container} {e : SelEntry}
    (h : considerContainer repo tag x = some e) : e.cnt = x := by
  unfold considerContainer at h
  repeat' split at h
  all_goals first
    | (injection h with h; exact h ▸ rfl)
    | exact absurd h (by simp)

theorem mem_toUpdate {repo tag : Str} {cs : List Container} {c : Container} :
    c ∈ toUpdate repo tag cs ↔
      c ∈ cs ∧ (considerContainer repo tag c).isSome := by
  unfold toUpdate selectEntries
  simp only [List.mem_map, List.mem_filterMap]
  constructor
  · rintro ⟨e, ⟨x, hx, hcx⟩, rfl⟩
    have := considerContainer_cnt hcx
    subst this
    exact ⟨hx, by simp [hcx]⟩
  · rintro ⟨hc, hsome⟩
    rcases Option.isSome_iff_exists.mp hsome with ⟨e, he⟩
    exact ⟨e, ⟨c, hc, he⟩, considerContainer_cnt he⟩

theorem comparePrePart_self (s : Str) : comparePrePart s s = 0 := by
  simp [comparePrePart]

theorem cprLoop_self (l : List Str) : cprLoop l l = 0 := by
  induction l with
  | nil => simp [cprLoop]
  | cons s ss ih => simp [cprLoop, comparePrePart_self, ih]

theorem comparePrerelease_self (p : Str) : comparePrerelease p p = 0 := by
  simp [comparePrerelease, cprLoop_self]

theorem compareSegment_self (a : Nat) : compareSegment a a = 0 := by
  simp [compareSegment]

theorem compareSegment_antisymm (a b : Nat) :
    compareSegment a b = -compareSegment b a := by
  unfold compareSegment
  split_ifs <;> omega

theorem compareSemver_self (v : SemVer) : compareSemver v v = 0 := by
  unfold compareSemver
  by_cases hp : v.pre = [] <;>
    simp [compareSegment_self, comparePrerelease_self, hp]

/-- When two versions carry the same prerelease string, `Compare` is
antisymmetric (this fails in general for numeric prerelease identifiers
with leading zeros, but those never arise under equal prereleases). -/
theorem compareSemver_swap {v o : SemVer} (h : v.pre = o.pre) :
    compareSemver v o = -compareSemver o v := by
  unfold compareSemver
  rw [h, compareSegment_antisymm v.major o.major,
    compareSegment_antisymm v.minor o.minor,
    compareSegment_antisymm v.patch o.patch]
  generalize compareSegment o.major v.major = a
  generalize compareSegment o.minor v.minor = b
  generalize compareSegment o.patch v.patch = c
  by_cases hp : o.pre = [] <;>
    · simp only [hp, comparePrerelease_self]
      split_ifs <;> first | omega | simp_all

theorem lessThan_iff_greaterThan {v o : SemVer} (h : v.pre = o.pre) :
    lessThan v o = true ↔ greaterThan o v = true := by
  simp only [lessThan, greaterThan, compareSemver_swap h,
    decide_eq_true_eq]
  omega

theorem lessThan_self (v : SemVer) : lessThan v v = false := by
  simp [lessThan, compareSemver_self]

/-- Claim C1: for a running container of the requested repository whose
current tag and the target tag both parse as semantic versions, the
container is selected for update iff the prerelease and build-metadata
components of the two versions are identical and the target version is
strictly greater than the current one; differing prerelease or metadata
make it unselected regardless of numeric ordering. -/
theorem C1_semver_gate (repo tag : Str) (cs : List Container) (c : Container)
    (cv v : SemVer) (hmem : c ∈ cs)
    (hrepo : (splitRepoTag c.image).1 = repo)
    (hcv : parseSemver (splitRepoTag c.image).2 = some cv)
    (hv : parseSemver tag = some v) :
    c ∈ toUpdate repo tag cs ↔
      (cv.pre = v.pre ∧ cv.metadata = v.metadata ∧ greaterThan v cv = true) := by
  rw [mem_toUpdate]
  have hlat : ¬ (splitRepoTag c.image).2 = latestStr := by
    intro he
    rw [he] at hcv
    have h0 : parseSemver latestStr = none := by decide
    rw [h0] at hcv
    cases hcv
  simp only [considerContainer, if_pos hrepo, if_neg hlat, hcv, hv]
  constructor
  · rintro ⟨-, hs⟩
    by_cases hcond : cv.pre = v.pre ∧ cv.metadata = v.metadata ∧
        lessThan cv v = true
    · exact ⟨hcond.1, hcond.2.1,
        (lessThan_iff_greaterThan hcond.1).mp hcond.2.2⟩
    · rw [if_neg hcond] at hs
      simp at hs
  · rintro ⟨h1, h2, h3⟩
    refine ⟨hmem, ?_⟩
    rw [if_pos ⟨h1, h2, (lessThan_iff_greaterThan h1).mpr h3⟩]
    rfl

/-- Witness for `C1_semver_gate`: container `app:1.2.0`, request
`(app, 1.3.0)` is selected. -/
theorem C1_semver_gate_witness :
    (⟨"c1".data, "app:1.2.0".data⟩ : Container) ∈
      toUpdate "app".data "1.3.0".data [⟨"c1".data, "app:1.2.0".data⟩] :=
  (C1_semver_gate "app".data "1.3.0".data _ _
    ⟨1, 2, 0, [], []⟩ ⟨1, 3, 0, [], []⟩
    (by decide) (by decide) (by decide) (by decide)).mpr (by decide)

/-- Claim C3: a matching container whose current tag is the sentinel
`latest` is selected iff the target tag is also `latest`; and a matching
container pinned to any non-`latest` tag is never selected when the
target tag is `latest`. -/
theorem C3_latest_tag_rule (repo tag : Str) (cs : List Container) :
    (∀ c ∈ cs, (splitRepoTag c.image).1 = repo →
      (splitRepoTag c.image).2 = latestStr →
      (c ∈ toUpdate repo tag cs ↔ tag = latestStr)) ∧
    (∀ c : Container, (splitRepoTag c.image).1 = repo →
      (splitRepoTag c.image).2 ≠ latestStr → tag = latestStr →
      c ∉ toUpdate repo tag cs) := by
  constructor
  · intro c hc h1 h2
    rw [mem_toUpdate]
    simp only [considerContainer, if_pos h1, h2, if_pos rfl]
    constructor
    · rintro ⟨-, hs⟩
      by_cases ht : tag = latestStr
      · exact ht
      · rw [if_neg ht] at hs
        simp at hs
    · intro ht
      exact ⟨hc, by rw [if_pos ht]; rfl⟩
  · intro c h1 h2 ht hmem
    rcases (mem_toUpdate.mp hmem) with ⟨-, hs⟩
    simp only [considerContainer, if_pos h1, if_neg h2] at hs
    rcases hp : parseSemver (splitRepoTag c.image).2 with - | cv
    · rw [hp] at hs
      simp at hs
    · rw [hp] at hs
      have hnone : parseSemver tag = none := by
        rw [ht]
        decide
      rw [hnone] at hs
      simp at hs

/-- Witness for `C3_latest_tag_rule`: container `app:latest` with request
`(app, latest)` is selected. -/
theorem C3_latest_tag_rule_witness :
    (⟨"c1".data, "app:latest".data⟩ : Container) ∈
      toUpdate "app".data "latest".data [⟨"c1".data, "app:latest".data⟩] :=
  ((C3_latest_tag_rule "app".data "latest".data
      [⟨"c1".data, "app:latest".data⟩]).1
    ⟨"c1".data, "app:latest".data⟩
    (by decide) (by decide) (by decide)).mpr rfl

/-- Claim C4 (refuted — code bug): when a latest-tracking container is
selected by a latest push, the selection log statement evaluates
`cVer.String()` and `ver.String()` while both version pointers are still
nil (no parse happened on that path, and `semver.Version.String` has a
value receiver), so the call dereferences a nil pointer: the run panics
instead of proceeding, contradicting the claimed safety. -/
theorem C4_nil_version_log :
    selectEntries "app".data "latest".data [⟨"c1".data, "app:latest".data⟩]
      = [⟨⟨"c1".data, "app:latest".data⟩, none, none⟩] ∧
    (updateContainer "app".data "latest".data oInert
        [⟨"c1".data, "app:latest".data⟩]).result = .panicked := by
  constructor
  · decide
  · decide

/-- Claim C7: when the selection set is empty the run returns success
having issued only the container listing: no pull and no container
inspect/remove/create/start call occurs. -/
theorem C7_empty_selection_no_action (repo tag : Str) (o : Oracle)
    (st : List Container) (hrepo : repo ≠ []) (htag : tag ≠ [])
    (hlist : o.listOk = true) (hsel : toUpdate repo tag st = []) :
    updateContainer repo tag o st = ⟨[.list], .ok, st⟩ := by
  have hsel' : selectEntries repo tag st = [] := by
    unfold toUpdate at hsel
    exact List.map_eq_nil_iff.mp hsel
  unfold updateContainer
  rw [if_neg (by simp [hrepo, htag]), if_neg (by simp [hlist]),
    if_neg (by simp [hsel']), if_pos hsel']

/-- Witness for `C7_empty_selection_no_action`: a single container of a
different repository, request `(app, 1.3.0)`. -/
theorem C7_empty_selection_no_action_witness :
    updateContainer "app".data "1.3.0".data oInert
        [⟨"c1".data, "other:1.0.0".data⟩]
      = ⟨[.list], .ok, [⟨"c1".data, "other:1.0.0".data⟩]⟩ :=
  C7_empty_selection_no_action "app".data "1.3.0".data oInert
    [⟨"c1".data, "other:1.0.0".data⟩]
    (by decide) (by decide) rfl (by decide)

/-- Claim C9: if the image pull occurs and fails, the run returns an
error having issued exactly the listing and the pull: no container
inspect/remove/create/start call is made and the container state is
unchanged. -/
theorem C9_pull_failure_atomic (repo tag : Str) (o : Oracle)
    (st : List Container) (hpull : o.pullOk = false)
    (hreach : Call.pull (repo ++ ':' :: tag) ∈
      (updateContainer repo tag o st).trace) :
    updateContainer repo tag o st
      = ⟨[.list, .pull (repo ++ ':' :: tag)], .err, st⟩ := by
  unfold updateContainer at hreach ⊢
  split_ifs at hreach ⊢ <;> first
    | rfl
    | simp at hreach

/-- Witness for `C9_pull_failure_atomic`: container `app:1.2.0`, request
`(app, 1.3.0)`, pull fails. -/
theorem C9_pull_failure_atomic_witness :
    updateContainer "app".data "1.3.0".data oPullFail
        [⟨"c1".data, "app:1.2.0".data⟩]
      = ⟨[.list, .pull ("app".data ++ ':' :: "1.3.0".data)], .err,
          [⟨"c1".data, "app:1.2.0".data⟩]⟩ :=
  C9_pull_failure_atomic "app".data "1.3.0".data oPullFail
    [⟨"c1".data, "app:1.2.0".data⟩] rfl (by decide)

/-- Claim C10 (counterexample): with one container `app:1.2.0`, request
`(app, 1.3.0)` and every call succeeding except the post-start inspect,
the run does not continue past the failed inspect as the claim states:
it panics (the zero `types.ContainerJSON` has a nil embedded
`*ContainerJSONBase`, so `prevImageId != inspect.Image` dereferences
nil) and no image-removal call is ever issued. -/
theorem C10_poststart_counterexample :
    (updateContainer "app".data "1.3.0".data oPostInspectFail
        [⟨"c1".data, "app:1.2.0".data⟩]).result = .panicked ∧
    Call.imageRemove "img1".data ∉
      (updateContainer "app".data "1.3.0".data oPostInspectFail
        [⟨"c1".data, "app:1.2.0".data⟩]).trace := by
  constructor
  · decide
  · decide

/-- Claim C10 (amended): the re-inspect after starting the replacement
container is performed without checking its error; when it fails, the
inspect result is the zero `types.ContainerJSON`, whose embedded
`*ContainerJSONBase` is nil, so evaluating `prevImageId != inspect.Image`
dereferences a nil pointer: the run panics at the comparison — it never
reports the inspect failure as an error, no image-removal attempt is
made, and the remaining containers are left unprocessed. -/
theorem C10_poststart_inspect_panics (fullRepo : Str) (o : Oracle)
    (cnt : Container) (restCnts st : List Container) (insp : Inspect)
    (cfg : Config) (newId : Str)
    (h1 : o.inspectRes cnt.id = some insp)
    (h2 : o.removeOk cnt.id = true)
    (h3 : insp.config = some cfg)
    (h4 : o.createRes insp.name = some newId)
    (h5 : o.startOk newId = true)
    (h6 : o.inspectRes newId = none) :
    recreateLoop fullRepo o (cnt :: restCnts) st
      = ([.inspect cnt.id, .remove cnt.id,
          .create insp.name (replacementConfig cfg fullRepo),
          .start newId, .inspect newId], .panicked,
         st.filter (fun c => !(c.id == cnt.id)) ++
           [⟨newId, (replacementConfig cfg fullRepo).image⟩]) := by
  simp only [recreateLoop, h1, h2, h3, h4, h5, h6, Bool.true_eq_false,
    if_false]

/-- Witness for `C10_poststart_inspect_panics`: one container, all calls
succeed except the post-start inspect; the step panics with no
image-removal call and the loop does not continue. -/
theorem C10_poststart_inspect_panics_witness :
    recreateLoop "app:1.3.0".data oPostInspectFail
        [⟨"c1".data, "app:1.2.0".data⟩] [⟨"c1".data, "app:1.2.0".data⟩]
      = ([.inspect "c1".data, .remove "c1".data,
          .create "/app".data ⟨"app:1.3.0".data, "R".data⟩,
          .start "n1".data, .inspect "n1".data], RunResult.panicked,
         [⟨"n1".data, "app:1.3.0".data⟩]) :=
  (C10_poststart_inspect_panics "app:1.3.0".data oPostInspectFail
    ⟨"c1".data, "app:1.2.0".data⟩ [] [⟨"c1".data, "app:1.2.0".data⟩]
    ⟨"img1".data, "/app".data, some ⟨"app:1.2.0".data, "R".data⟩⟩
    ⟨"app:1.2.0".data, "R".data⟩ "n1".data
    (by decide) rfl rfl (by decide) rfl (by decide)).trans (by decide)

theorem recreateLoop_result_indep (fullRepo : Str) (o : Oracle)
    (lst : List Container) (st st' : List Container) :
    (recreateLoop fullRepo o lst st).1 = (recreateLoop fullRepo o lst st').1 ∧
    (recreateLoop fullRepo o lst st).2.1
      = (recreateLoop fullRepo o lst st').2.1 := by
  induction lst generalizing st st' with
  | nil => exact ⟨rfl, rfl⟩
  | cons cnt rest ih =>
    cases hins : o.inspectRes cnt.id with
    | none => simp [recreateLoop, hins]
    | some insp =>
      by_cases hrm : o.removeOk cnt.id = false
      · simp [recreateLoop, hins, hrm]
      · cases hc : insp.config with
        | none => simp [recreateLoop, hins, hrm, hc]
        | some cfg =>
          cases hcr : o.createRes insp.name with
          | none => simp [recreateLoop, hins, hrm, hc, hcr]
          | some newId =>
            by_cases hst : o.startOk newId = false
            · simp [recreateLoop, hins, hrm, hc, hcr, hst]
            · cases hi2 : o.inspectRes newId with
              | none => simp [recreateLoop, hins, hrm, hc, hcr, hst, hi2]
              | some insp2 =>
                have htl := ih
                  (st.filter (fun c => !(c.id == cnt.id)) ++
                    [⟨newId, (replacementConfig cfg fullRepo).image⟩])
                  (st'.filter (fun c => !(c.id == cnt.id)) ++
                    [⟨newId, (replacementConfig cfg fullRepo).image⟩])
                simp [recreateLoop, hins, hrm, hc, hcr, hst, hi2,
                  htl.1, htl.2]

/-- Claim C8: a matching container whose current tag (or the target tag,
compared against it) fails semantic-version parsing is merely excluded
from the selection: the selection set is the same as if the container
were absent, and the run result is also the same — the parse failure
never turns the run into an error. -/
theorem C8_parse_failure_skips (repo tag : Str) (o : Oracle)
    (xs ys : List Container) (cx : Container)
    (hrepo : (splitRepoTag cx.image).1 = repo)
    (hlat : (splitRepoTag cx.image).2 ≠ latestStr)
    (hfail : parseSemver (splitRepoTag cx.image).2 = none ∨
      parseSemver tag = none) :
    cx ∉ toUpdate repo tag (xs ++ cx :: ys) ∧
    toUpdate repo tag (xs ++ cx :: ys) = toUpdate repo tag (xs ++ ys) ∧
    (updateContainer repo tag o (xs ++ cx :: ys)).result =
      (updateContainer repo tag o (xs ++ ys)).result := by
  have hnone : considerContainer repo tag cx = none := by
    unfold considerContainer
    rw [if_pos hrepo, if_neg hlat]
    rcases hfail with hf | hf
    · simp [hf]
    · rcases hp : parseSemver (splitRepoTag cx.image).2 with - | cv
      · simp [hp]
      · simp [hp, hf]
  have hse : selectEntries repo tag (xs ++ cx :: ys)
      = selectEntries repo tag (xs ++ ys) := by
    unfold selectEntries
    simp [List.filterMap_append, hnone]
  have htu : toUpdate repo tag (xs ++ cx :: ys)
      = toUpdate repo tag (xs ++ ys) := by
    unfold toUpdate
    rw [hse]
  refine ⟨?_, htu, ?_⟩
  · simp [mem_toUpdate, hnone]
  · unfold updateContainer
    rw [hse, htu]
    split_ifs <;> first
      | rfl
      | exact (recreateLoop_result_indep _ _ _ _ _).2

/-- Witness for `C8_parse_failure_skips`: container `app:abc` with an
unparseable tag, request `(app, 1.0.0)`. -/
theorem C8_parse_failure_skips_witness :
    (⟨"c1".data, "app:abc".data⟩ : Container) ∉
        toUpdate "app".data "1.0.0".data [⟨"c1".data, "app:abc".data⟩] ∧
    toUpdate "app".data "1.0.0".data [⟨"c1".data, "app:abc".data⟩]
      = toUpdate "app".data "1.0.0".data [] ∧
    (updateContainer "app".data "1.0.0".data oInert
        [⟨"c1".data, "app:abc".data⟩]).result =
      (updateContainer "app".data "1.0.0".data oInert []).result :=
  C8_parse_failure_skips "app".data "1.0.0".data oInert [] []
    ⟨"c1".data, "app:abc".data⟩ (by decide) (by decide) (Or.inl (by decide))

/-! ## Character-class facts about `parseSemver`

A successfully parsed tag consists of `v`, digits, `.`, `-`, `+` and
`[0-9A-Za-z-]` identifier characters only; in particular it contains no
colon.  These facts let us compute how a successfully parsed tag behaves
under the image-reference split and the `:latest` suffix trim. -/

theorem mem_splitChar {sep : Char} {s : Str} {c : Char} (h : c ∈ s) :
    c = sep ∨ ∃ p ∈ splitChar sep s, c ∈ p := by
  induction s with
  | nil => cases h
  | cons x rest ih =>
    rcases List.mem_cons.mp h with rfl | hr
    · by_cases hx : c = sep
      · left
        exact hx
      · right
        rw [show splitChar sep (c :: rest)
              = match splitChar sep rest with
                | [] => [[c]]
                | p :: ps => (c :: p) :: ps
            from by rw [splitChar, if_neg hx]]
        cases hsp : splitChar sep rest with
        | nil => exact absurd hsp (splitChar_ne_nil _ _)
        | cons p ps => exact ⟨c :: p, by simp, by simp⟩
    · rcases ih hr with h1 | ⟨p, hp, hcp⟩
      · left
        exact h1
      · right
        by_cases hx : x = sep
        · rw [show splitChar sep (x :: rest) = [] :: splitChar sep rest
              from by rw [splitChar, if_pos hx]]
          exact ⟨p, List.mem_cons_of_mem _ hp, hcp⟩
        · rw [show splitChar sep (x :: rest)
                = match splitChar sep rest with
                  | [] => [[x]]
                  | p :: ps => (x :: p) :: ps
              from by rw [splitChar, if_neg hx]]
          cases hsp : splitChar sep rest with
          | nil => exact absurd hsp (splitChar_ne_nil _ _)
          | cons q qs =>
            rw [hsp] at hp
            rcases List.mem_cons.mp hp with rfl | hq
            · exact ⟨x :: p, by simp, List.mem_cons_of_mem _ hcp⟩
            · exact ⟨p, List.mem_cons_of_mem _ hq, hcp⟩

theorem validParts_chars {s : Str} {c : Char} (hv : validParts s = true)
    (hc : c ∈ s) : isPreChar c = true ∨ c = '.' := by
  rcases mem_splitChar hc with h | ⟨p, hp, hcp⟩
  · right
    exact h
  · left
    unfold validParts at hv
    rw [List.all_eq_true] at hv
    have h2 := hv p hp
    rw [Bool.and_eq_true, List.all_eq_true] at h2
    exact h2.2 c hcp

theorem isPreChar_ne_colon {c : Char} (h : isPreChar c = true) : c ≠ ':' := by
  intro hce
  subst hce
  exact absurd h (by decide)

theorem dropWhile_head_false {p : Char → Bool} {l : Str} {c0 : Char}
    {m' : Str} (h : l.dropWhile p = c0 :: m') : p c0 = false := by
  induction l with
  | nil => cases h
  | cons x xs ih =>
    rw [List.dropWhile_cons] at h
    split at h
    · exact ih h
    · rename_i hx
      injection h with h1 h2
      subst h1
      exact Bool.not_eq_true _ ▸ hx

theorem colon_mem_dropWhile_digits {s : Str} (h : ':' ∈ s) :
    ':' ∈ s.dropWhile Char.isDigit := by
  rw [← List.takeWhile_append_dropWhile (p := Char.isDigit) (l := s)] at h
  rcases List.mem_append.mp h with h1 | h1
  · exact absurd (List.mem_takeWhile_imp h1) (by decide)
  · exact h1

theorem parseNum_rest {s : Str} {k : Nat × Str} (h : parseNum s = some k) :
    k.2 = s.dropWhile Char.isDigit := by
  unfold parseNum at h
  split at h
  · injection h with h
    exact (congrArg Prod.snd h).symm
  · cases h

theorem parseNum_colon {s : Str} {k : Nat × Str} (h : parseNum s = some k)
    (hc : ':' ∈ s) : ':' ∈ k.2 := by
  rw [parseNum_rest h]
  exact colon_mem_dropWhile_digits hc

theorem parseDotNum_colon {s : Str} {k : Nat × Str}
    (h : parseDotNum s = some k) (hc : ':' ∈ s) : ':' ∈ k.2 := by
  unfold parseDotNum at h
  split at h
  · rename_i r'
    refine parseNum_colon h ?_
    rcases List.mem_cons.mp hc with h0 | h0
    · exact absurd h0.symm (by decide)
    · exact h0
  · injection h with h
    rw [← h]
    exact hc

theorem parseTail_no_colon {s : Str} {k : Str × Str}
    (h : parseTail s = some k) : ':' ∉ s := by
  intro hc
  unfold parseTail at h
  split at h
  · cases hc
  · rename_i m
    rcases List.mem_cons.mp hc with h0 | hr
    · exact absurd h0.symm (by decide)
    · split_ifs at h with hv
      rcases validParts_chars hv hr with h1 | h1
      · exact isPreChar_ne_colon h1 rfl
      · exact absurd h1 (by decide)
  · rename_i r
    rcases List.mem_cons.mp hc with h0 | hr
    · exact absurd h0.symm (by decide)
    · split_ifs at h with hv
      rw [← List.takeWhile_append_dropWhile
          (p := fun c => !(c == '+')) (l := r)] at hr
      rcases List.mem_append.mp hr with h1 | h1
      · rcases validParts_chars hv h1 with h2 | h2
        · exact isPreChar_ne_colon h2 rfl
        · exact absurd h2 (by decide)
      · rcases hrest : r.dropWhile (fun c => !(c == '+')) with - | ⟨c0, m'⟩
        · rw [hrest] at h1
          cases h1
        · have hc0 : c0 = '+' := by
            have h3 := dropWhile_head_false hrest
            simpa using h3
          subst hc0
          rw [hrest] at h1
          simp only [hrest] at h
          rcases List.mem_cons.mp h1 with h2 | h2
          · exact absurd h2.symm (by decide)
          · split_ifs at h with hv2
            rcases validParts_chars hv2 h2 with h3 | h3
            · exact isPreChar_ne_colon h3 rfl
            · exact absurd h3 (by decide)
  · cases h

theorem stripV_colon {s : Str} (h : ':' ∈ s) : ':' ∈ stripV s := by
  unfold stripV
  split
  · rename_i r
    rcases List.mem_cons.mp h with h0 | h0
    · exact absurd h0.symm (by decide)
    · exact h0
  · exact h

theorem parseSemver_no_colon {s : Str} {v : SemVer}
    (h : parseSemver s = some v) : ':' ∉ s := by
  intro hc
  have hc1 : ':' ∈ stripV s := stripV_colon hc
  unfold parseSemver at h
  rcases hn : parseNum (stripV s) with - | ⟨maj, r1⟩
  · simp [hn] at h
  · simp only [hn] at h
    have hc2 : ':' ∈ r1 := parseNum_colon hn hc1
    rcases hd1 : parseDotNum r1 with - | ⟨mi, r2⟩
    · simp [hd1] at h
    · simp only [hd1] at h
      have hc3 : ':' ∈ r2 := parseDotNum_colon hd1 hc2
      rcases hd2 : parseDotNum r2 with - | ⟨pa, r3⟩
      · simp [hd2] at h
      · simp only [hd2] at h
        have hc4 : ':' ∈ r3 := parseDotNum_colon hd2 hc3
        rcases ht : parseTail r3 with - | k4
        · simp [ht] at h
        · exact parseTail_no_colon ht hc4

/-! ## Behaviour of the `:latest` suffix trim -/

theorem trimSuffix_strip (repo : Str) :
    trimSuffix (repo ++ ':' :: latestStr) (':' :: latestStr) = repo := by
  unfold trimSuffix
  rw [if_pos (List.suffix_append repo (':' :: latestStr))]
  have hl : (repo ++ ':' :: latestStr).length - (':' :: latestStr).length
      = repo.length := by
    simp
  rw [hl, List.take_left]

theorem not_suffix_colon_latest {repo tag : Str} (hcol : ':' ∉ tag)
    (hne : tag ≠ latestStr) :
    ¬ (':' :: latestStr) <:+ (repo ++ ':' :: tag) := by
  intro hsuf
  obtain ⟨w, hw⟩ := hsuf
  have hrev := congrArg List.reverse hw
  simp only [List.reverse_append, List.reverse_cons, List.append_assoc,
    List.singleton_append] at hrev
  have hL : (latestStr.reverse).length = 6 := by decide
  rcases Nat.lt_trichotomy tag.reverse.length 6 with hlen | hlen | hlen
  · have h1 := congrArg (List.take (tag.reverse.length + 1)) hrev
    rw [List.take_append_of_le_length (by omega), List.take_append 1] at h1
    simp only [List.take_succ_cons, List.take_zero] at h1
    have hmem : ':' ∈ (latestStr.reverse).take (tag.reverse.length + 1) := by
      rw [h1]
      simp
    have hmem2 : ':' ∈ latestStr.reverse := List.take_subset _ _ hmem
    exact absurd hmem2 (by decide)
  · have h1 := congrArg (List.take 6) hrev
    rw [List.take_append_of_le_length (by omega),
      List.take_append_of_le_length (by omega),
      List.take_of_length_le (by omega),
      List.take_of_length_le (by omega)] at h1
    exact hne (List.reverse_injective h1.symm)
  · have h1 := congrArg (List.take 7) hrev
    rw [show (7 : Nat) = (latestStr.reverse).length + 1 from by rw [hL],
      List.take_append 1, List.take_append_of_le_length (by omega)] at h1
    simp only [List.take_succ_cons, List.take_zero] at h1
    have hmem : ':' ∈ tag.reverse.take ((latestStr.reverse).length + 1) := by
      rw [← h1]
      simp
    exact hcol (List.mem_reverse.mp (List.take_subset _ _ hmem))

theorem trimSuffix_keep {repo tag : Str} (hcol : ':' ∉ tag)
    (hne : tag ≠ latestStr) :
    trimSuffix (repo ++ ':' :: tag) (':' :: latestStr) = repo ++ ':' :: tag := by
  unfold trimSuffix
  rw [if_neg (not_suffix_colon_latest hcol hne)]

/-! ## Selection-shape lemmas used by the idempotence and frame claims -/

theorem splitChar_head_no_sep (sep : Char) (s : Str) :
    sep ∉ (splitChar sep s).headD [] := by
  induction s with
  | nil => simp [splitChar]
  | cons c rest ih =>
    by_cases hc : c = sep
    · rw [show splitChar sep (c :: rest) = [] :: splitChar sep rest
          from by rw [splitChar, if_pos hc]]
      simp
    · rw [show splitChar sep (c :: rest)
            = match splitChar sep rest with
              | [] => [[c]]
              | p :: ps => (c :: p) :: ps
          from by rw [splitChar, if_neg hc]]
      cases hsp : splitChar sep rest with
      | nil => exact absurd hsp (splitChar_ne_nil _ _)
      | cons p ps =>
        rw [hsp] at ih
        simp only [List.headD_cons] at ih ⊢
        intro hmem
        rcases List.mem_cons.mp hmem with h0 | h0
        · exact hc h0.symm
        · exact ih h0

theorem selected_tag_shape {repo tag : Str} {cnt : Container}
    (h : (considerContainer repo tag cnt).isSome = true) :
    tag = latestStr ∨ ∃ v, parseSemver tag = some v := by
  unfold considerContainer at h
  by_cases h1 : (splitRepoTag cnt.image).1 = repo
  · rw [if_pos h1] at h
    by_cases h2 : (splitRepoTag cnt.image).2 = latestStr
    · rw [if_pos h2] at h
      by_cases h3 : tag = (splitRepoTag cnt.image).2
      · left
        rw [h3, h2]
      · rw [if_neg h3] at h
        simp at h
    · rw [if_neg h2] at h
      rcases hp : parseSemver (splitRepoTag cnt.image).2 with - | cv
      · simp [hp] at h
      · simp only [hp] at h
        rcases hq : parseSemver tag with - | v
        · simp [hq] at h
        · right
          exact ⟨v, rfl⟩
  · rw [if_neg h1] at h
    simp at h

theorem entry_cVer_isSome {repo tag : Str} {cnt : Container} {e : SelEntry}
    (h : considerContainer repo tag cnt = some e)
    (hv : e.cVer.isSome = true) : ∃ v, parseSemver tag = some v := by
  unfold considerContainer at h
  by_cases h1 : (splitRepoTag cnt.image).1 = repo
  · rw [if_pos h1] at h
    by_cases h2 : (splitRepoTag cnt.image).2 = latestStr
    · rw [if_pos h2] at h
      by_cases h3 : tag = (splitRepoTag cnt.image).2
      · rw [if_pos h3] at h
        injection h with h
        rw [← h] at hv
        simp at hv
      · rw [if_neg h3] at h
        exact Option.noConfusion h
    · rw [if_neg h2] at h
      rcases hp : parseSemver (splitRepoTag cnt.image).2 with - | cv
      · simp [hp] at h
      · simp only [hp] at h
        rcases hq : parseSemver tag with - | v
        · simp [hq] at h
        · exact ⟨v, rfl⟩
  · rw [if_neg h1] at h
    exact Option.noConfusion h

theorem considerContainer_fullRepo_none {repo tag : Str} {v : SemVer}
    (hv : parseSemver tag = some v) (newId : Str) :
    considerContainer repo tag ⟨newId, repo ++ ':' :: tag⟩ = none := by
  have hcol : ':' ∉ tag := parseSemver_no_colon hv
  have htne : tag ≠ [] := by
    intro h
    rw [h] at hv
    have h0 : parseSemver ([] : Str) = none := by decide
    rw [h0] at hv
    exact Option.noConfusion hv
  have hlat : tag ≠ latestStr := by
    intro h
    rw [h] at hv
    have h0 : parseSemver latestStr = none := by decide
    rw [h0] at hv
    exact Option.noConfusion hv
  by_cases hrc : ':' ∈ repo
  · have hh := splitChar_head_no_sep ':' (repo ++ ':' :: tag)
    unfold considerContainer
    rw [if_neg ?hne]
    case hne =>
      intro heq
      have h1 : (splitRepoTag (repo ++ ':' :: tag)).1
          = (splitChar ':' (repo ++ ':' :: tag)).headD [] := rfl
      rw [h1] at heq
      rw [heq] at hh
      exact hh hrc
  · have hsplit : splitChar ':' (repo ++ ':' :: tag) = [repo, tag] := by
      rw [splitChar_append _ hrc, splitChar_no_sep hcol]
    have h1 : splitRepoTag (repo ++ ':' :: tag) = (repo, tag) := by
      unfold splitRepoTag
      rw [hsplit]
      simp [htne]
    unfold considerContainer
    rw [h1]
    simp [hv, hlat, lessThan_self]

/-- After a fully successful recreation loop, every container in the
resulting state satisfies `P`, provided `P` holds of every replacement
container and every original container either satisfies `P` or is in the
processed list. -/
theorem recreateLoop_ok_all_none (fullRepo : Str) (o : Oracle)
    (P : Container → Prop)
    (hnew : ∀ newId : Str, P ⟨newId, trimSuffix fullRepo (':' :: latestStr)⟩) :
    ∀ (lst st : List Container),
    (∀ c ∈ st, P c ∨ c ∈ lst) →
    (recreateLoop fullRepo o lst st).2.1 = .ok →
    ∀ c ∈ (recreateLoop fullRepo o lst st).2.2, P c := by
  intro lst
  induction lst with
  | nil =>
    intro st hst hok c hc
    simp only [recreateLoop] at hc
    rcases hst c hc with h | h
    · exact h
    · cases h
  | cons cnt rest ih =>
    intro st hst hok c hc
    cases hins : o.inspectRes cnt.id with
    | none =>
      simp [recreateLoop, hins] at hok
    | some insp =>
      by_cases hrm : o.removeOk cnt.id = false
      · simp [recreateLoop, hins, hrm] at hok
      · cases hcfg : insp.config with
        | none => simp [recreateLoop, hins, hrm, hcfg] at hok
        | some cfg =>
          cases hcr : o.createRes insp.name with
          | none => simp [recreateLoop, hins, hrm, hcfg, hcr] at hok
          | some newId =>
            by_cases hst2 : o.startOk newId = false
            · simp [recreateLoop, hins, hrm, hcfg, hcr, hst2] at hok
            · cases hi2 : o.inspectRes newId with
              | none =>
                simp [recreateLoop, hins, hrm, hcfg, hcr, hst2, hi2] at hok
              | some insp2 =>
                simp only [recreateLoop, hins, hrm, hcfg, hcr, hst2, hi2,
                  if_false] at hok hc
                refine ih _ ?_ hok c hc
                intro c2 hc2
                rcases List.mem_append.mp hc2 with hmem | hmem
                · have hc2' := List.mem_filter.mp hmem
                  rcases hst c2 hc2'.1 with h | h
                  · exact Or.inl h
                  · rcases List.mem_cons.mp h with h0 | h0
                    · exfalso
                      have := hc2'.2
                      rw [h0] at this
                      simp at this
                    · exact Or.inr h0
                · rw [List.mem_singleton.mp hmem]
                  exact Or.inl (hnew newId)

/-- The empty-selection early exit of `updateContainer`: listing succeeds,
no container is selected, and the run stops successfully after the
listing call. -/
theorem run_empty_selection (repo tag : Str) (o : Oracle)
    (st : List Container) (hrepo : repo ≠ []) (htag : tag ≠ [])
    (hlist : o.listOk = true) (hsel : selectEntries repo tag st = []) :
    updateContainer repo tag o st = ⟨[.list], .ok, st⟩ := by
  unfold updateContainer
  rw [if_neg (by simp [hrepo, htag]), if_neg (by simp [hlist]),
    if_neg (by simp [hsel]), if_pos hsel]

/-- Claim C6: for every selected container, the replacement configuration
equals the inspected configuration except that its image field is
rewritten to `repository:tag`, with the `:latest` suffix stripped exactly
when the target tag is the sentinel `latest` (a latest-tracking
replacement references the bare repository name). -/
theorem C6_replacement_image (repo tag : Str) (st : List Container)
    (cnt : Container) (cfg : Config)
    (hsel : cnt ∈ toUpdate repo tag st) :
    (replacementConfig cfg (repo ++ ':' :: tag)).rest = cfg.rest ∧
    (replacementConfig cfg (repo ++ ':' :: tag)).image
      = (if tag = latestStr then repo else repo ++ ':' :: tag) := by
  refine ⟨rfl, ?_⟩
  have hshape := selected_tag_shape (mem_toUpdate.mp hsel).2
  show trimSuffix (repo ++ ':' :: tag) (':' :: latestStr) = _
  rcases hshape with hlat | ⟨v, hv⟩
  · rw [if_pos hlat, hlat]
    exact trimSuffix_strip repo
  · have hne : tag ≠ latestStr := by
      intro h
      rw [h] at hv
      have h0 : parseSemver latestStr = none := by decide
      rw [h0] at hv
      exact Option.noConfusion hv
    rw [if_neg hne]
    exact trimSuffix_keep (parseSemver_no_colon hv) hne

/-- Witness for `C6_replacement_image`: the selected container
`app:1.2.0` under request `(app, 1.3.0)`. -/
theorem C6_replacement_image_witness :
    (replacementConfig ⟨"x".data, "R".data⟩
        ("app".data ++ ':' :: "1.3.0".data)).rest = "R".data ∧
    (replacementConfig ⟨"x".data, "R".data⟩
        ("app".data ++ ':' :: "1.3.0".data)).image
      = (if "1.3.0".data = latestStr then "app".data
         else "app".data ++ ':' :: "1.3.0".data) :=
  C6_replacement_image "app".data "1.3.0".data
    [⟨"c1".data, "app:1.2.0".data⟩] ⟨"c1".data, "app:1.2.0".data⟩
    ⟨"x".data, "R".data⟩ (by decide)

/-- Claim C5: once a run of `updateContainer(repo, tag)` fully succeeds,
an immediately following run of the same request over the resulting
container state selects zero containers, and therefore performs no pull
and no recreation (it issues only the listing call and stops
successfully). -/
theorem C5_idempotent (repo tag : Str) (o : Oracle) (st : List Container)
    (hok : (updateContainer repo tag o st).result = .ok) :
    toUpdate repo tag (updateContainer repo tag o st).state = [] ∧
    ∀ o' : Oracle, o'.listOk = true →
      updateContainer repo tag o' (updateContainer repo tag o st).state
        = ⟨[.list], .ok, (updateContainer repo tag o st).state⟩ := by
  have hval : ¬ (repo = [] ∨ tag = []) := by
    intro hv
    unfold updateContainer at hok
    rw [if_pos hv] at hok
    exact RunResult.noConfusion hok
  have hmain : toUpdate repo tag (updateContainer repo tag o st).state
      = [] := by
    by_cases hlist : o.listOk = false
    · unfold updateContainer at hok
      rw [if_neg hval, if_pos hlist] at hok
      exact RunResult.noConfusion hok
    · by_cases hpan : (selectEntries repo tag st).any
          (fun e => e.cVer.isNone || e.ver.isNone) = true
      · unfold updateContainer at hok
        rw [if_neg hval, if_neg hlist, if_pos hpan] at hok
        exact RunResult.noConfusion hok
      · by_cases hsel : selectEntries repo tag st = []
        · unfold updateContainer
          rw [if_neg hval, if_neg hlist, if_neg hpan, if_pos hsel]
          simp [toUpdate, hsel]
        · by_cases href : o.refParseOk = false
          · unfold updateContainer at hok
            rw [if_neg hval, if_neg hlist, if_neg hpan, if_neg hsel,
              if_pos href] at hok
            exact RunResult.noConfusion hok
          · by_cases hpull : o.pullOk = false
            · unfold updateContainer at hok
              rw [if_neg hval, if_neg hlist, if_neg hpan, if_neg hsel,
                if_neg href, if_pos hpull] at hok
              exact RunResult.noConfusion hok
            · have hrun : updateContainer repo tag o st
                  = ⟨[.list, .pull (repo ++ ':' :: tag)] ++
                      (recreateLoop (repo ++ ':' :: tag) o
                        (toUpdate repo tag st) st).1,
                    (recreateLoop (repo ++ ':' :: tag) o
                      (toUpdate repo tag st) st).2.1,
                    (recreateLoop (repo ++ ':' :: tag) o
                      (toUpdate repo tag st) st).2.2⟩ := by
                unfold updateContainer
                rw [if_neg hval, if_neg hlist, if_neg hpan, if_neg hsel,
                  if_neg href, if_neg hpull]
              rw [hrun] at hok ⊢
              dsimp only at hok ⊢
              obtain ⟨e, he⟩ := List.exists_mem_of_ne_nil _ hsel
              obtain ⟨cnt0, hcnt0, hce⟩ := List.mem_filterMap.mp he
              have hcvs : e.cVer.isSome = true := by
                have hfalse : (selectEntries repo tag st).any
                    (fun e => e.cVer.isNone || e.ver.isNone) = false :=
                  eq_false_of_ne_true hpan
                have h2 := List.any_eq_false.mp hfalse e he
                cases hcv : e.cVer with
                | none => rw [hcv] at h2; simp at h2
                | some x => rfl
              obtain ⟨v, hv⟩ := entry_cVer_isSome hce hcvs
              have hne : tag ≠ latestStr := by
                intro h
                rw [h] at hv
                have h0 : parseSemver latestStr = none := by decide
                rw [h0] at hv
                exact Option.noConfusion hv
              have htrim : trimSuffix (repo ++ ':' :: tag) (':' :: latestStr)
                  = repo ++ ':' :: tag :=
                trimSuffix_keep (parseSemver_no_colon hv) hne
              have hall := recreateLoop_ok_all_none (repo ++ ':' :: tag) o
                (fun c => considerContainer repo tag c = none)
                (fun newId => by
                  rw [htrim]
                  exact considerContainer_fullRepo_none hv newId)
                (toUpdate repo tag st) st
                (fun c hc => by
                  by_cases hcc : considerContainer repo tag c = none
                  · exact Or.inl hcc
                  · exact Or.inr (mem_toUpdate.mpr
                      ⟨hc, Option.isSome_iff_ne_none.mpr hcc⟩))
                hok
              unfold toUpdate selectEntries
              rw [List.map_eq_nil_iff, List.filterMap_eq_nil_iff]
              exact hall
  refine ⟨hmain, fun o' ho' => run_empty_selection _ _ _ _
    (fun h => hval (Or.inl h)) (fun h => hval (Or.inr h)) ho' ?_⟩
  unfold toUpdate at hmain
  exact List.map_eq_nil_iff.mp hmain

/-- Witness for `C5_idempotent`: after the successful run of
`(app, 1.3.0)` over one container `app:1.2.0`, the selection over the
resulting state is empty. -/
theorem C5_idempotent_witness :
    toUpdate "app".data "1.3.0".data
      (updateContainer "app".data "1.3.0".data oAllOk
        [⟨"c1".data, "app:1.2.0".data⟩]).state = [] :=
  (C5_idempotent "app".data "1.3.0".data oAllOk
    [⟨"c1".data, "app:1.2.0".data⟩] (by decide)).1

end DockerUpdater
